import Mathlib

/-!
Verification of `tools/gen_gamma_lut.py`: a generator of a 256-entry gamma
lookup table, rendered either as a C array literal or as CSV.

The Python float arithmetic of the Table Builder is embedded as exact real
arithmetic (`Real.rpow` for `math.pow`, integer truncation toward zero for
Python's `int()`).  String-producing code is embedded as computable string
functions; Python's `str.join` is embedded by `joinSep`.  A Python function
that may raise is embedded as `Except String`; an exception that escapes
`main` makes the interpreter print a diagnostic to stderr and exit with a
non-zero status, which the `Except.error` branch of `main` models.
-/

namespace GammaLut

/-- Python `int()` applied to a real value: truncation toward zero. -/
noncomputable def truncToZero (y : ℝ) : ℤ :=
  if 0 ≤ y then ⌊y⌋ else ⌈y⌉

/-- The value `v` computed at line 31 of the source, before clamping:
`int(math.pow(i / 255.0, gamma) * 255.0 + 0.5)`. -/
noncomputable def rawValue (gamma : ℝ) (i : ℕ) : ℤ :=
  truncToZero (((i : ℝ) / 255) ^ gamma * 255 + 0.5)

/-- One loop iteration of `build_gamma_lut` (source lines 29-36): the raw
value followed by the two clamp branches. -/
noncomputable def buildEntry (gamma : ℝ) (i : ℕ) : ℤ :=
  let v := rawValue gamma i
  if v < 0 then 0 else if v > 255 then 255 else v

/-- Embedding of `build_gamma_lut` (source lines 24-37): raises `ValueError` for
`gamma <= 0`, otherwise returns the 256-entry table. -/
noncomputable def build_gamma_lut (gamma : ℝ) : Except String (List ℤ) :=
  if gamma ≤ 0 then Except.error "gamma must be > 0"
  else Except.ok ((List.range 256).map (buildEntry gamma))

/-- Python `str.join`: `joinSep s l` is `s.join(l)`. -/
def joinSep (s : String) : List String → String
  | [] => ""
  | [a] => a
  | a :: b :: rest => a ++ s ++ joinSep s (b :: rest)

/-- Python `f'{v:3d}'`: decimal rendering right-aligned to minimum width 3,
padded with spaces. -/
def fmt3 (v : ℤ) : String :=
  let s := toString v
  if s.length < 3 then String.mk (List.replicate (3 - s.length) ' ') ++ s else s

/-- The opening line of the array declaration (source lines 43-46):
the qualifier chosen by the `progmem` flag, the identifier, `[256] = ` and
an opening brace. -/
def cArrayHeader (name : String) (progmem : Bool) : String :=
  (if progmem then "static const uint8_t PROGMEM "
   else "static const uint8_t ") ++ name ++ "[256] = \x7b"

/-- The 16 value rows of the array body (source lines 47-49): for each
`row` in `range(0, 256, 16)`, the slice `values[row : row + 16]` formatted
with `', '.join(f'\x7bv:3d\x7d' ...)` and a trailing comma. -/
def cArrayRows (values : List ℤ) : List String :=
  (List.range 16).map (fun k =>
    "    " ++ joinSep ", " (((values.drop (16 * k)).take 16).map fmt3) ++ ",")

/-- The four lines appended when `include_helper` is set
(source lines 51-58). -/
def cHelperLines (name : String) (progmem : Bool) : List String :=
  ["", "static inline uint8_t " ++ name ++ "_read(uint8_t v) \x7b",
   (if progmem then "    return pgm_read_byte(&" ++ name ++ "[v]);"
    else "    return " ++ name ++ "[v];"),
   "\x7d"]

/-- Embedding of `emit_c_array` (source lines 40-59): the accumulated `lines` joined
with newlines. -/
def emit_c_array (values : List ℤ) (name : String) (progmem : Bool)
    (include_helper : Bool) : String :=
  joinSep "\n" ((cArrayHeader name progmem :: cArrayRows values ++ ["\x7d;"])
    ++ (if include_helper then cHelperLines name progmem else []))

/-- Embedding of `emit_csv` (source lines 62-63). -/
def emit_csv (values : List ℤ) : String :=
  joinSep "," (values.map (fun v => toString v))

/-- The output-format selector (`--format c|csv`). -/
inductive OutFormat
  | c
  | csv

/-- The parsed command-line configuration handed to `main` by argparse. -/
structure Args where
  gamma : ℝ
  name : String
  progmem : Bool
  helper : Bool
  format : OutFormat

/-- Embedding of `main` (source lines 66-89) after argument parsing: on success returns
the full text written to standard output together with the return code 0; an
`Except.error` is the `ValueError` escaping `main`, which aborts the process
(diagnostic on stderr, non-zero exit status, nothing on stdout). -/
noncomputable def mainRun (args : Args) : Except String (String × ℤ) :=
  match build_gamma_lut args.gamma with
  | Except.error e => Except.error e
  | Except.ok values =>
    match args.format with
    | OutFormat.csv => Except.ok (emit_csv values ++ "\n", 0)
    | OutFormat.c =>
        Except.ok (emit_c_array values args.name args.progmem args.helper ++ "\n", 0)

/-! ### Spec-side definitions (used to compare the code with the
specification's own wording) -/

/-- The table entry as the specification words it: round-half-up of
`(i/255)^g * 255` (truncation after adding `0.5`), clamped into `[0, 255]`. -/
noncomputable def specRoundHalfUpClamped (g : ℝ) (i : ℕ) : ℤ :=
  max 0 (min (truncToZero (((i : ℝ) / 255) ^ g * 255 + 0.5)) 255)

/-! ### Spec-side splitting and decimal parsing, used to state the CSV
round trip -/

/-- Split a character sequence at every comma (the spec's "splitting it on
commas"). -/
def splitCommas : List Char → List (List Char)
  | [] => [[]]
  | c :: rest =>
    if c = ',' then [] :: splitCommas rest
    else
      match splitCommas rest with
      | [] => [[c]]
      | t :: ts => (c :: t) :: ts

/-- The numeric value of a decimal digit character. -/
def digitVal (c : Char) : Option ℕ :=
  if c.isDigit then some (c.toNat - '0'.toNat) else none

/-- Fold decimal digits into a number; fails on any non-digit. -/
def parseDecCore : List Char → ℕ → Option ℕ
  | [], acc => some acc
  | c :: rest, acc =>
    match digitVal c with
    | none => none
    | some d => parseDecCore rest (10 * acc + d)

/-- Parse a non-empty all-digit token as an integer (the spec's "parseable
as an integer"). -/
def parseDecimal : List Char → Option ℤ
  | [] => none
  | c :: rest => (parseDecCore (c :: rest) 0).map (fun n => (n : ℤ))

/-! ### Basic facts about the Table Builder -/

theorem truncToZero_of_nonneg {y : ℝ} (h : 0 ≤ y) : truncToZero y = ⌊y⌋ :=
  if_pos h

theorem base_mem_unit {i : ℕ} (hi : i < 256) :
    0 ≤ (i : ℝ) / 255 ∧ (i : ℝ) / 255 ≤ 1 := by
  constructor
  · positivity
  · rw [div_le_one (by norm_num)]
    have : (i : ℝ) ≤ 255 := by exact_mod_cast Nat.le_of_lt_succ hi
    linarith

theorem rpow_mem_unit {g : ℝ} (hg : 0 < g) {i : ℕ} (hi : i < 256) :
    0 ≤ ((i : ℝ) / 255) ^ g ∧ ((i : ℝ) / 255) ^ g ≤ 1 := by
  obtain ⟨h0, h1⟩ := base_mem_unit hi
  exact ⟨Real.rpow_nonneg h0 g, Real.rpow_le_one h0 h1 hg.le⟩

theorem rawValue_eq_floor {g : ℝ} (hg : 0 < g) {i : ℕ} (hi : i < 256) :
    rawValue g i = ⌊((i : ℝ) / 255) ^ g * 255 + 0.5⌋ := by
  obtain ⟨h0, _⟩ := rpow_mem_unit hg hi
  exact truncToZero_of_nonneg (by nlinarith)

theorem rawValue_bounds {g : ℝ} (hg : 0 < g) {i : ℕ} (hi : i < 256) :
    0 ≤ rawValue g i ∧ rawValue g i ≤ 255 := by
  obtain ⟨h0, h1⟩ := rpow_mem_unit hg hi
  rw [rawValue_eq_floor hg hi]
  constructor
  · rw [Int.le_floor]
    push_cast
    nlinarith
  · rw [Int.floor_le_iff]
    push_cast
    nlinarith

theorem buildEntry_eq_rawValue {g : ℝ} (hg : 0 < g) {i : ℕ} (hi : i < 256) :
    buildEntry g i = rawValue g i := by
  obtain ⟨h0, h1⟩ := rawValue_bounds hg hi
  unfold buildEntry
  simp only []
  rw [if_neg (by omega), if_neg (by omega)]

theorem rawValue_mono {g : ℝ} (hg : 0 < g) {i j : ℕ} (hij : i ≤ j)
    (hj : j < 256) :
    rawValue g i ≤ rawValue g j := by
  have hi : i < 256 := lt_of_le_of_lt hij hj
  rw [rawValue_eq_floor hg hi, rawValue_eq_floor hg hj]
  apply Int.floor_le_floor
  have h0 : 0 ≤ (i : ℝ) / 255 := (base_mem_unit hi).1
  have hxy : (i : ℝ) / 255 ≤ (j : ℝ) / 255 := by
    apply div_le_div_of_nonneg_right ?_ (by norm_num)
    · exact_mod_cast hij
  have := Real.rpow_le_rpow h0 hxy hg.le
  nlinarith

theorem buildEntry_zero {g : ℝ} (hg : 0 < g) : buildEntry g 0 = 0 := by
  rw [buildEntry_eq_rawValue hg (by norm_num), rawValue_eq_floor hg (by norm_num)]
  have hz : (((0 : ℕ) : ℝ) / 255) ^ g = 0 := by
    rw [show (((0 : ℕ) : ℝ) / 255) = 0 by norm_num]
    exact Real.zero_rpow (ne_of_gt hg)
  rw [hz]
  rw [Int.floor_eq_iff]
  norm_num

theorem buildEntry_last {g : ℝ} (hg : 0 < g) : buildEntry g 255 = 255 := by
  rw [buildEntry_eq_rawValue hg (by norm_num), rawValue_eq_floor hg (by norm_num)]
  have hone : (((255 : ℕ) : ℝ) / 255) ^ g = 1 := by
    rw [show (((255 : ℕ) : ℝ) / 255) = 1 by norm_num]
    exact Real.one_rpow g
  rw [hone]
  rw [Int.floor_eq_iff]
  norm_num

theorem buildEntry_id (i : ℕ) (hi : i < 256) : buildEntry 1 i = (i : ℤ) := by
  rw [buildEntry_eq_rawValue (by norm_num) hi, rawValue_eq_floor (by norm_num) hi]
  have hx : (((i : ℝ) / 255)) ^ (1:ℝ) * 255 = (i : ℝ) := by
    rw [Real.rpow_one]
    field_simp
  rw [hx, Int.floor_eq_iff]
  push_cast
  norm_num

theorem build_gamma_lut_pos {g : ℝ} (hg : 0 < g) :
    build_gamma_lut g = Except.ok ((List.range 256).map (buildEntry g)) := by
  unfold build_gamma_lut
  rw [if_neg (not_le.mpr hg)]

theorem buildEntry_eq_spec {g : ℝ} (hg : 0 < g) {i : ℕ} (hi : i < 256) :
    buildEntry g i = specRoundHalfUpClamped g i := by
  obtain ⟨h0, h1⟩ := rawValue_bounds hg hi
  rw [buildEntry_eq_rawValue hg hi]
  unfold specRoundHalfUpClamped
  have : truncToZero (((i : ℝ) / 255) ^ g * 255 + 0.5) = rawValue g i := rfl
  rw [this]
  omega

/-! ### Claims about the Table Builder -/

/-- C1: for every gamma `g > 0` the Builder returns exactly 256 integers,
the `i`-th being round-half-up of `(i/255)^g * 255` clamped into `[0,255]`. -/
theorem builder_matches_spec_formula (g : ℝ) (hg : 0 < g) :
    ∃ T : List ℤ, build_gamma_lut g = Except.ok T ∧ T.length = 256 ∧
      ∀ i : ℕ, i < 256 → T[i]? = some (specRoundHalfUpClamped g i) := by
  refine ⟨(List.range 256).map (buildEntry g), build_gamma_lut_pos hg, by simp, ?_⟩
  intro i hi
  rw [List.getElem?_map, List.getElem?_range hi]
  exact congrArg some (buildEntry_eq_spec hg hi)

theorem builder_matches_spec_formula_witness :
    (0 : ℝ) < 1 ∧
      (∃ T : List ℤ, build_gamma_lut 1 = Except.ok T ∧ T.length = 256 ∧
        ∀ i : ℕ, i < 256 → T[i]? = some (specRoundHalfUpClamped 1 i)) :=
  ⟨by norm_num, builder_matches_spec_formula 1 (by norm_num)⟩

/-- C2: the Builder fails (raises `ValueError`) exactly when `g ≤ 0`, and
returns a table exactly when `g > 0`; on failure no table is produced. -/
theorem builder_fails_iff_nonpositive (g : ℝ) :
    ((∃ e, build_gamma_lut g = Except.error e) ↔ g ≤ 0) ∧
      ((∃ T, build_gamma_lut g = Except.ok T) ↔ 0 < g) := by
  unfold build_gamma_lut
  by_cases h : g ≤ 0
  · rw [if_pos h]
    constructor
    · exact ⟨fun _ => h, fun _ => ⟨_, rfl⟩⟩
    · constructor
      · rintro ⟨T, hT⟩
        exact absurd hT (by simp)
      · intro hg
        exact absurd h (not_le.mpr hg)
  · rw [if_neg h]
    constructor
    · constructor
      · rintro ⟨e, he⟩
        exact absurd he (by simp)
      · intro hg
        exact absurd hg h
    · exact ⟨fun _ => not_le.mp h, fun _ => ⟨_, rfl⟩⟩

/-- C3: for every `g > 0` the table starts at 0 and is non-decreasing. -/
theorem builder_table_monotone (g : ℝ) (hg : 0 < g) :
    ∃ T : List ℤ, build_gamma_lut g = Except.ok T ∧ T[0]? = some 0 ∧
      ∀ i j : ℕ, i < j → j < 256 → ∀ a b : ℤ,
        T[i]? = some a → T[j]? = some b → a ≤ b := by
  refine ⟨(List.range 256).map (buildEntry g), build_gamma_lut_pos hg, ?_, ?_⟩
  · rw [List.getElem?_map, List.getElem?_range (by norm_num)]
    exact congrArg some (buildEntry_zero hg)
  · intro i j hij hj a b ha hb
    have hi : i < 256 := lt_trans hij hj
    rw [List.getElem?_map, List.getElem?_range hi] at ha
    rw [List.getElem?_map, List.getElem?_range hj] at hb
    obtain rfl : a = buildEntry g i := (Option.some_inj.mp ha).symm
    obtain rfl : b = buildEntry g j := (Option.some_inj.mp hb).symm
    rw [buildEntry_eq_rawValue hg hi, buildEntry_eq_rawValue hg hj]
    exact rawValue_mono hg hij.le hj

theorem builder_table_monotone_witness :
    (0 : ℝ) < 1 ∧
      (∃ T : List ℤ, build_gamma_lut 1 = Except.ok T ∧ T[0]? = some 0 ∧
        ∀ i j : ℕ, i < j → j < 256 → ∀ a b : ℤ,
          T[i]? = some a → T[j]? = some b → a ≤ b) :=
  ⟨by norm_num, builder_table_monotone 1 (by norm_num)⟩

set_option maxRecDepth 4096 in
/-- C8: gamma `1.0` yields the identity table `T[i] = i`. -/
theorem builder_gamma_one_identity :
    build_gamma_lut 1 = Except.ok ((List.range 256).map (fun i => (i : ℤ))) := by
  rw [build_gamma_lut_pos (by norm_num : (0 : ℝ) < 1)]
  exact congrArg Except.ok
    (List.map_congr_left (fun i hi => buildEntry_id i (List.mem_range.mp hi)))

/-- C9: for every `g > 0` the final entry is exactly 255. -/
theorem builder_last_entry_255 (g : ℝ) (hg : 0 < g) :
    ∃ T : List ℤ, build_gamma_lut g = Except.ok T ∧ T[255]? = some 255 := by
  refine ⟨(List.range 256).map (buildEntry g), build_gamma_lut_pos hg, ?_⟩
  rw [List.getElem?_map, List.getElem?_range (by norm_num)]
  exact congrArg some (buildEntry_last hg)

theorem builder_last_entry_255_witness :
    (0 : ℝ) < 1 ∧
      (∃ T : List ℤ, build_gamma_lut 1 = Except.ok T ∧ T[255]? = some 255) :=
  ⟨by norm_num, builder_last_entry_255 1 (by norm_num)⟩

/-- C10: the pre-clamp value is always non-negative for `g > 0`, so the
lower clamp branch is dead and the upper clamp alone decides the entry. -/
theorem lower_clamp_dead (g : ℝ) (hg : 0 < g) (i : ℕ) (hi : i < 256) :
    0 ≤ rawValue g i ∧
      buildEntry g i = (if rawValue g i > 255 then 255 else rawValue g i) := by
  obtain ⟨h0, h1⟩ := rawValue_bounds hg hi
  refine ⟨h0, ?_⟩
  rw [buildEntry_eq_rawValue hg hi, if_neg (by omega)]

/-! ### Facts about `joinSep` (the embedding of Python `str.join`) -/

theorem joinSep_cons (s a : String) {l : List String} (hl : l ≠ []) :
    joinSep s (a :: l) = a ++ s ++ joinSep s l := by
  cases l with
  | nil => exact absurd rfl hl
  | cons b t => rfl

theorem joinSep_append (s : String) {m : List String} (hm : m ≠ []) :
    ∀ l : List String, l ≠ [] →
      joinSep s (l ++ m) = joinSep s l ++ s ++ joinSep s m := by
  intro l
  induction l with
  | nil => intro h; exact absurd rfl h
  | cons a t ih =>
    intro _
    cases t with
    | nil =>
      cases m with
      | nil => exact absurd rfl hm
      | cons b m' => rfl
    | cons c t' =>
      have e1 : (a :: c :: t') ++ m = a :: ((c :: t') ++ m) := rfl
      rw [e1, joinSep_cons s a (by simp), ih (by simp),
        joinSep_cons s a (by simp)]
      apply String.ext
      simp [String.data_append]

theorem mem_data_joinSep {c : Char} (s : String) :
    ∀ l : List String, c ∈ (joinSep s l).data →
      (∃ a ∈ l, c ∈ a.data) ∨ c ∈ s.data := by
  intro l
  induction l with
  | nil => intro h; exact absurd h (by simp [joinSep, String.data])
  | cons a t ih =>
    intro h
    cases t with
    | nil => exact Or.inl ⟨a, by simp, h⟩
    | cons b t' =>
      rw [joinSep_cons s a (by simp), String.data_append, String.data_append]
        at h
      rcases List.mem_append.mp h with h1 | h2
      · rcases List.mem_append.mp h1 with h3 | h4
        · exact Or.inl ⟨a, by simp, h3⟩
        · exact Or.inr h4
      · rcases ih h2 with ⟨x, hx, hcx⟩ | hs
        · exact Or.inl ⟨x, by simp [hx], hcx⟩
        · exact Or.inr hs

theorem splitCommas_ne_nil : ∀ cs : List Char, splitCommas cs ≠ [] := by
  intro cs
  induction cs with
  | nil => simp [splitCommas]
  | cons c rest ih =>
    by_cases h : c = ','
    · simp [splitCommas, h]
    · simp only [splitCommas, if_neg h]
      cases hs : splitCommas rest with
      | nil => simp
      | cons t ts => simp

theorem splitCommas_no_comma {cs : List Char} (h : ',' ∉ cs) :
    splitCommas cs = [cs] := by
  induction cs with
  | nil => rfl
  | cons c rest ih =>
    have hc : c ≠ ',' := fun e => h (e ▸ List.mem_cons_self c rest)
    have hr : ',' ∉ rest := fun e => h (List.mem_cons_of_mem c e)
    simp only [splitCommas, if_neg hc, ih hr]

theorem splitCommas_append {xs : List Char} (h : ',' ∉ xs) (ys : List Char) :
    splitCommas (xs ++ ',' :: ys) = xs :: splitCommas ys := by
  induction xs with
  | nil => simp [splitCommas]
  | cons c rest ih =>
    have hc : c ≠ ',' := fun e => h (e ▸ List.mem_cons_self c rest)
    have hr : ',' ∉ rest := fun e => h (List.mem_cons_of_mem c e)
    have e1 : (c :: rest) ++ ',' :: ys = c :: (rest ++ ',' :: ys) := rfl
    rw [e1]
    simp only [splitCommas, if_neg hc, ih hr]

theorem splitCommas_joinSep :
    ∀ l : List String, l ≠ [] → (∀ a ∈ l, ',' ∉ a.data) →
      splitCommas (joinSep "," l).data = l.map String.data := by
  intro l
  induction l with
  | nil => intro h; exact absurd rfl h
  | cons a t ih =>
    intro _ hnc
    cases t with
    | nil =>
      show splitCommas a.data = [a.data]
      exact splitCommas_no_comma (hnc a (by simp))
    | cons b t' =>
      rw [joinSep_cons "," a (by simp), String.data_append, String.data_append]
      have e1 : (",").data = [','] := rfl
      rw [e1]
      have e2 : a.data ++ [','] ++ (joinSep "," (b :: t')).data
          = a.data ++ ',' :: (joinSep "," (b :: t')).data := by
        simp
      rw [e2, splitCommas_append (hnc a (by simp)) _]
      have := ih (by simp) (fun x hx => hnc x (List.mem_cons_of_mem a hx))
      rw [this]
      rfl

set_option maxRecDepth 10000 in
theorem decimal_round_trip_small :
    ∀ n : ℕ, n < 256 → parseDecimal (toString ((n : ℤ))).data = some (n : ℤ)
      ∧ ',' ∉ (toString ((n : ℤ))).data ∧ '\n' ∉ (toString ((n : ℤ))).data := by
  decide

theorem lower_clamp_dead_witness :
    ((0 : ℝ) < 1 ∧ (0 : ℕ) < 256) ∧
      (0 ≤ rawValue 1 0 ∧
        buildEntry 1 0 = (if rawValue 1 0 > 255 then 255 else rawValue 1 0)) :=
  ⟨⟨by norm_num, by norm_num⟩, lower_clamp_dead 1 (by norm_num) 0 (by norm_num)⟩



/-! ### Claims about the renderers and the entry point -/

/-- C4 counterexample: `emit_c_array` performs no length check.  Applied to
the empty table (length 0, not 256) it returns a formatted string — it has
no failure path at all — rather than raising an InvalidParameter error. -/
theorem array_renderer_wrong_length_returns_string :
    ([] : List ℤ).length ≠ 256 ∧
      emit_c_array [] "gamma8" false false
        = "static const uint8_t gamma8[256] = \x7b\n    ,\n    ,\n    ,\n    ,\n    ,\n    ,\n    ,\n    ,\n    ,\n    ,\n    ,\n    ,\n    ,\n    ,\n    ,\n    ,\n\x7d;" :=
  ⟨by decide, by decide⟩

/-- C4 amended: the Array Renderer never fails.  For every input table (of
any length), identifier and flags it returns a formatted string, whose
header always declares 256 entries regardless of the actual length. -/
theorem array_renderer_total_with_fixed_header (values : List ℤ)
    (name : String) (pm hl : Bool) :
    ∃ rest : String, emit_c_array values name pm hl
      = (if pm then "static const uint8_t PROGMEM "
         else "static const uint8_t ") ++ name ++ "[256] = \x7b" ++ rest := by
  refine ⟨"\n" ++ joinSep "\n" ((cArrayRows values ++ ["\x7d;"])
    ++ (if hl then cHelperLines name pm else [])), ?_⟩
  unfold emit_c_array
  have e1 : (cArrayHeader name pm :: cArrayRows values ++ ["\x7d;"])
      ++ (if hl then cHelperLines name pm else [])
      = cArrayHeader name pm :: ((cArrayRows values ++ ["\x7d;"])
        ++ (if hl then cHelperLines name pm else [])) := by simp
  rw [e1, joinSep_cons _ _ (by simp)]
  unfold cArrayHeader
  apply String.ext
  simp [String.data_append]

/-- C6: with the accessor flag set the output is exactly the accessor-free
output followed by a blank line and a `<name>_read` function whose body
reads through `pgm_read_byte` when the memory-placement flag is set and by
direct indexing otherwise; with the flag unset no such function is
emitted. -/
theorem helper_flag_emits_read_accessor (values : List ℤ) (name : String)
    (pm : Bool) (h : values.length = 256) :
    emit_c_array values name pm true
      = emit_c_array values name pm false
        ++ "\n\nstatic inline uint8_t " ++ name ++ "_read(uint8_t v) \x7b\n"
        ++ (if pm then "    return pgm_read_byte(&" ++ name ++ "[v]);"
            else "    return " ++ name ++ "[v];")
        ++ "\n\x7d" := by
  unfold emit_c_array
  rw [if_pos rfl, if_neg (by decide), List.append_nil]
  have e := joinSep_append "\n"
    (show cHelperLines name pm ≠ [] by simp [cHelperLines])
    (cArrayHeader name pm :: cArrayRows values ++ ["\x7d;"]) (by simp)
  rw [e]
  apply String.ext
  simp [cHelperLines, joinSep, String.data_append]

set_option maxRecDepth 10000 in
theorem helper_flag_emits_read_accessor_witness :
    (List.replicate 256 (0 : ℤ)).length = 256 ∧
      emit_c_array (List.replicate 256 (0 : ℤ)) "led" true true
        = emit_c_array (List.replicate 256 (0 : ℤ)) "led" true false
          ++ "\n\nstatic inline uint8_t " ++ "led" ++ "_read(uint8_t v) \x7b\n"
          ++ (if true then "    return pgm_read_byte(&" ++ "led" ++ "[v]);"
              else "    return " ++ "led" ++ "[v];")
          ++ "\n\x7d" :=
  ⟨by simp, helper_flag_emits_read_accessor (List.replicate 256 0) "led" true
    (by simp)⟩

/-- C7: for every 256-entry table of values in `[0, 255]` the CSV output is
a single line (no newline characters) that splits on commas into exactly
256 tokens, each parsing back to the corresponding table entry. -/
theorem csv_round_trip (values : List ℤ) (h : values.length = 256)
    (hrange : ∀ v ∈ values, 0 ≤ v ∧ v ≤ 255) :
    '\n' ∉ (emit_csv values).data ∧
      (splitCommas (emit_csv values).data).length = 256 ∧
      (splitCommas (emit_csv values).data).map parseDecimal
        = values.map (fun v => some v) := by
  have hcsv : emit_csv values = joinSep "," (values.map fun v => toString v) :=
    rfl
  have hfact : ∀ v ∈ values,
      parseDecimal (toString v).data = some v
        ∧ ',' ∉ (toString v).data ∧ '\n' ∉ (toString v).data := by
    intro v hv
    obtain ⟨h0, h1⟩ := hrange v hv
    have hlt : v.toNat < 256 := by omega
    have hn : ((v.toNat : ℕ) : ℤ) = v := Int.toNat_of_nonneg h0
    have := decimal_round_trip_small v.toNat hlt
    rw [hn] at this
    exact this
  have hne : values.map (fun v => toString v) ≠ [] := by
    intro e
    have := congrArg List.length e
    simp [h] at this
  have hnc : ∀ a ∈ values.map (fun v => toString v), ',' ∉ a.data := by
    intro a ha
    obtain ⟨v, hv, rfl⟩ := List.mem_map.mp ha
    exact (hfact v hv).2.1
  have hsplit := splitCommas_joinSep _ hne hnc
  rw [hcsv]
  refine ⟨?_, ?_, ?_⟩
  · intro hmem
    rcases mem_data_joinSep "," _ hmem with ⟨a, ha, hca⟩ | hs
    · obtain ⟨v, hv, rfl⟩ := List.mem_map.mp ha
      exact (hfact v hv).2.2 hca
    · exact absurd hs (by decide)
  · rw [hsplit]
    simp [h]
  · rw [hsplit, List.map_map, List.map_map]
    apply List.map_congr_left
    intro v hv
    exact (hfact v hv).1

set_option maxRecDepth 10000 in
theorem csv_round_trip_witness :
    (List.replicate 256 (7 : ℤ)).length = 256 ∧
      (∀ v ∈ List.replicate 256 (7 : ℤ), 0 ≤ v ∧ v ≤ 255) ∧
      ('\n' ∉ (emit_csv (List.replicate 256 (7 : ℤ))).data ∧
        (splitCommas (emit_csv (List.replicate 256 (7 : ℤ))).data).length = 256 ∧
        (splitCommas (emit_csv (List.replicate 256 (7 : ℤ))).data).map parseDecimal
          = (List.replicate 256 (7 : ℤ)).map (fun v => some v)) := by
  refine ⟨by simp, ?_, ?_⟩
  · intro v hv
    rw [List.eq_of_mem_replicate hv]
    norm_num
  · exact csv_round_trip (List.replicate 256 7) (by simp)
      (fun v hv => by rw [List.eq_of_mem_replicate hv]; norm_num)

/-- C5: when the Builder raises (gamma non-positive) the run aborts with the
error propagating out of `main` — a diagnostic on stderr, a non-zero exit
status, nothing on stdout; otherwise the full rendered output plus a
trailing newline is written and the status code is 0. -/
theorem entry_point_all_or_nothing (args : Args) :
    (args.gamma ≤ 0 → mainRun args = Except.error "gamma must be > 0") ∧
      (0 < args.gamma → ∃ T, build_gamma_lut args.gamma = Except.ok T ∧
        mainRun args = Except.ok
          ((match args.format with
            | OutFormat.csv => emit_csv T
            | OutFormat.c => emit_c_array T args.name args.progmem args.helper)
            ++ "\n", 0)) := by
  obtain ⟨g, nm, pm, hl, fmt⟩ := args
  constructor
  · intro hle
    have hb : build_gamma_lut g = Except.error "gamma must be > 0" := by
      unfold build_gamma_lut
      rw [if_pos hle]
    unfold mainRun
    dsimp only
    rw [hb]
  · intro hg
    refine ⟨(List.range 256).map (buildEntry g), build_gamma_lut_pos hg, ?_⟩
    unfold mainRun
    dsimp only
    rw [build_gamma_lut_pos hg]
    cases fmt <;> rfl

theorem entry_point_all_or_nothing_witness :
    ((Args.mk 1 "gamma8" false false OutFormat.c).gamma ≤ 0 →
        mainRun (Args.mk 1 "gamma8" false false OutFormat.c)
          = Except.error "gamma must be > 0") ∧
      (0 < (Args.mk 1 "gamma8" false false OutFormat.c).gamma →
        ∃ T, build_gamma_lut (Args.mk 1 "gamma8" false false OutFormat.c).gamma
            = Except.ok T ∧
          mainRun (Args.mk 1 "gamma8" false false OutFormat.c) = Except.ok
            ((match (Args.mk 1 "gamma8" false false OutFormat.c).format with
              | OutFormat.csv => emit_csv T
              | OutFormat.c =>
                  emit_c_array T (Args.mk 1 "gamma8" false false OutFormat.c).name
                    (Args.mk 1 "gamma8" false false OutFormat.c).progmem
                    (Args.mk 1 "gamma8" false false OutFormat.c).helper)
              ++ "\n", 0)) :=
  entry_point_all_or_nothing (Args.mk 1 "gamma8" false false OutFormat.c)

end GammaLut
